import Mathlib

/-!
Shallow embedding of `src/agent/api_rotation.py` (the API key rotation
manager of Agent-Forge) and proofs of the spec's testable properties.

Time is modelled as a rational number (Python `time.time()` floats carry
second-resolution budgets here; every comparison in the source is an
order comparison, faithfully mirrored over `ℚ`).  Each Python method that
reads the clock takes the current time as an explicit argument; methods
that mutate `self` return the updated manager.
-/

/-- State tracking for an individual API key (`APIKeyState` dataclass). -/
structure APIKeyState where
  key : String
  last_used : ℚ := 0
  is_available : Bool := true
  error_count : ℕ := 0
deriving Repr, DecidableEq

/-- Manager state: `rate_limit_seconds`, the slot list and the cursor
(`current_index`).  The `threading.Lock` serialises operations; each
operation here is one atomic step. -/
structure APIKeyRotationManager where
  rate_limit_seconds : ℚ
  key_states : List APIKeyState
  current_index : ℕ
deriving Repr, DecidableEq

namespace APIKeyRotationManager

/-- `__init__`: one fresh slot per key, cursor at 0. -/
def init (api_keys : List String) (rate_limit_seconds : ℚ) : APIKeyRotationManager :=
  { rate_limit_seconds := rate_limit_seconds
    key_states := api_keys.map (fun k => { key := k })
    current_index := 0 }

/-- The scan loop of `get_available_key` (lines 63-84): examine the slot at
`idx`; if it is available and `current_time - last_used >= rate_limit_seconds`
return its key together with the advanced cursor, otherwise advance the
cursor modulo the pool size and continue.  `fuel` is the Python
`range(len(self.key_states))` bound. -/
def scanStep (slots : List APIKeyState) (r t : ℚ) : ℕ → ℕ → Option String × ℕ
  | idx, 0 => (none, idx)
  | idx, fuel + 1 =>
    match slots.get? idx with
    | none => (none, idx)
    | some ks =>
      if ks.is_available = true ∧ r ≤ t - ks.last_used then
        (ks.key, (idx + 1) % slots.length)
      else
        scanStep slots r t ((idx + 1) % slots.length) fuel

/-- `get_available_key`: empty pool returns `none` before taking the lock;
otherwise scan at most `len(key_states)` slots starting at the cursor.  The
only state change is the cursor. -/
def get_available_key (m : APIKeyRotationManager) (current_time : ℚ) :
    Option String × APIKeyRotationManager :=
  if m.key_states.isEmpty then
    (none, m)
  else
    let res := scanStep m.key_states m.rate_limit_seconds current_time
      m.current_index m.key_states.length
    (res.1, { m with current_index := res.2 })

/-- Body of `mark_key_used` (lines 144-148): set `last_used` of the first
slot whose key matches, then `break`. -/
def markUsedList : List APIKeyState → String → ℚ → List APIKeyState
  | [], _, _ => []
  | ks :: rest, k, t =>
    if ks.key = k then { ks with last_used := t } :: rest
    else ks :: markUsedList rest k t

/-- `mark_key_used`: record the current time on the matching slot;
unknown keys are a silent no-op. -/
def mark_key_used (m : APIKeyRotationManager) (api_key : String) (current_time : ℚ) :
    APIKeyRotationManager :=
  { m with key_states := markUsedList m.key_states api_key current_time }

/-- Body of `mark_key_error` (lines 159-170): on the first matching slot,
increment `error_count` and, when `disable_temporarily`, clear
`is_available`; then `break`. -/
def markErrorList : List APIKeyState → String → Bool → List APIKeyState
  | [], _, _ => []
  | ks :: rest, k, d =>
    if ks.key = k then
      { ks with
        error_count := ks.error_count + 1
        is_available := if d then false else ks.is_available } :: rest
    else ks :: markErrorList rest k d

/-- `mark_key_error`: bump the error count, optionally disabling the slot;
unknown keys are a silent no-op. -/
def mark_key_error (m : APIKeyRotationManager) (api_key : String)
    (disable_temporarily : Bool) : APIKeyRotationManager :=
  { m with key_states := markErrorList m.key_states api_key disable_temporarily }

/-- `enable_all_keys`: every slot becomes available with a zero error
count; `last_used` is untouched. -/
def enable_all_keys (m : APIKeyRotationManager) : APIKeyRotationManager :=
  { m with
    key_states := m.key_states.map
      (fun ks => { ks with is_available := true, error_count := 0 }) }

end APIKeyRotationManager

open APIKeyRotationManager

/-- Repeated `get_available_key` calls at one time, collecting the results
and threading the manager state. -/
def acquireList (m : APIKeyRotationManager) (t : ℚ) :
    ℕ → List (Option String) × APIKeyRotationManager
  | 0 => ([], m)
  | n + 1 =>
    let s := m.get_available_key t
    let rest := acquireList s.2 t n
    (s.1 :: rest.1, rest.2)

/-- C1 helper: the manager after constructing over the single key `k` and
acknowledging a success at time `T`. -/
def singleUsed (k : String) (r T : ℚ) : APIKeyRotationManager :=
  (init [k] r).mark_key_used k T

/-- C1 — Cooldown respected: over a single credential `k` whose success was
acknowledged at time `T`, `get_available_key` returns `none` at any time
`t` with `T ≤ t < T + rate_limit_seconds`, and returns `k` once
`t ≥ T + rate_limit_seconds`. -/
theorem cooldown_respected (k : String) (r T t : ℚ) :
    (T ≤ t → t < T + r → ((singleUsed k r T).get_available_key t).1 = none)
    ∧ (T + r ≤ t → ((singleUsed k r T).get_available_key t).1 = some k) := by
  constructor
  · intro _ hlt
    have hcond : ¬ r ≤ t - T := by
      intro hc
      have : T + r ≤ t := by linarith
      linarith
    simp [singleUsed, init, mark_key_used, markUsedList, get_available_key, scanStep,
      hcond]
  · intro hge
    have hcond : r ≤ t - T := by linarith
    simp [singleUsed, init, mark_key_used, markUsedList, get_available_key, scanStep,
      hcond]

/-- C1 witness: key `"a"`, rate 15, success at 0: blocked at t = 10,
available again at t = 15. -/
theorem cooldown_respected_witness :
    ((singleUsed "a" 15 0).get_available_key 10).1 = none
    ∧ ((singleUsed "a" 15 0).get_available_key 15).1 = some "a" :=
  ⟨(cooldown_respected "a" 15 0 10).1 (by norm_num) (by norm_num),
   (cooldown_respected "a" 15 0 15).2 (by norm_num)⟩

/-- On a pool of fresh slots (all `last_used = 0`, available), a scan
starting at a valid cursor `c` at a time past the rate limit selects slot
`c` immediately and advances the cursor by one modulo the pool size. -/
theorem scanStep_fresh (keys : List String) (r t : ℚ) (c fuel : ℕ)
    (hc : c < keys.length) (ht : r ≤ t) (hfuel : 1 ≤ fuel) :
    scanStep (keys.map (fun k => ({ key := k } : APIKeyState))) r t c fuel
      = (keys.get? c, (c + 1) % keys.length) := by
  cases fuel with
  | zero => omega
  | succ f =>
    cases h : keys[c]? with
    | none =>
      have := List.getElem?_eq_none_iff.mp h
      omega
    | some k =>
      simp [scanStep, List.getElem?_map, h, sub_zero, ht, List.length_map,
        List.get?_eq_getElem?]

/-- `get_available_key` on a fresh pool at a valid cursor returns the key
at the cursor and advances it by one modulo the pool size. -/
theorem get_available_key_fresh (keys : List String) (r t : ℚ) (c : ℕ)
    (hc : c < keys.length) (ht : r ≤ t) :
    get_available_key
        ⟨r, keys.map (fun k => ({ key := k } : APIKeyState)), c⟩ t
      = (keys.get? c,
         ⟨r, keys.map (fun k => ({ key := k } : APIKeyState)),
          (c + 1) % keys.length⟩) := by
  have hnil : keys ≠ [] := List.ne_nil_of_length_pos (by omega)
  have hemp : (keys.map (fun k => ({ key := k } : APIKeyState))).isEmpty = false := by
    simp [List.isEmpty_eq_false, hnil]
  have hscan := scanStep_fresh keys r t c
    ((keys.map (fun k => ({ key := k } : APIKeyState))).length) hc ht
    (by simp [List.length_map]; omega)
  simp only [get_available_key, hemp, Bool.false_eq_true, if_false, hscan]

/-- Fresh-pool acquisition run: starting at cursor `c`, `j ≤ n - c`
consecutive calls return the keys `c, c+1, …, c+j-1` in order. -/
theorem acquireList_fresh (keys : List String) (r t : ℚ) (ht : r ≤ t) :
    ∀ (j c : ℕ), c + j ≤ keys.length →
      (acquireList
          ⟨r, keys.map (fun k => ({ key := k } : APIKeyState)), c⟩ t j).1
        = ((keys.drop c).take j).map some := by
  intro j
  induction j with
  | zero =>
    intro c _
    simp [acquireList]
  | succ j ih =>
    intro c hcj
    have hc : c < keys.length := by omega
    have hget : keys.get? c = some (keys.get ⟨c, hc⟩) := List.get?_eq_get hc
    have hdrop : keys.drop c = keys.get ⟨c, hc⟩ :: keys.drop (c + 1) := by
      simpa using List.drop_eq_getElem_cons hc
    simp only [acquireList, get_available_key_fresh keys r t c hc ht, hget, hdrop,
      List.take_succ_cons, List.map_cons, List.cons.injEq]
    refine ⟨trivial, ?_⟩
    by_cases hlt : c + 1 < keys.length
    · rw [Nat.mod_eq_of_lt hlt]
      exact ih (c + 1) (by omega)
    · have hj : j = 0 := by omega
      subst hj
      simp [acquireList]

/-- C2 — Round-robin fairness: on a freshly constructed pool of `N ≥ 1`
distinct credentials, at any time past the rate limit, the first `N`
consecutive `get_available_key` calls return the `N` credentials exactly
once each, in construction order starting at index 0. -/
theorem round_robin_fairness (keys : List String) (r t : ℚ)
    (hN : 1 ≤ keys.length) (hnd : keys.Nodup) (ht : r ≤ t) :
    (acquireList (init keys r) t keys.length).1 = keys.map some := by
  have h := acquireList_fresh keys r t ht keys.length 0 (by omega)
  simpa [init] using h

/-- C2 witness: pool `["a", "b"]`, rate 15, time 15: the two calls return
`"a"` then `"b"`. -/
theorem round_robin_fairness_witness :
    (acquireList (init ["a", "b"] 15) 15 (["a", "b"] : List String).length).1
      = (["a", "b"] : List String).map some :=
  round_robin_fairness ["a", "b"] 15 15 (by norm_num) (by decide) (by norm_num)

/-- C3 — End-to-end scenario over pool `["A", "B"]` with rate limit 15,
relative to a scenario origin `T0` past the rate limit (the fresh-slot
sentinel `last_used = 0` lies at least one full cooldown in the past): the
first call returns `"A"`, the second `"B"`; after `mark_key_used "A"` at
`T0` the next call still returns `"B"`; after `mark_key_used "B"` at
`T0 + 1`, the call at `T0 + 10` returns `none` and the call at
`T0 + 15 + 1/100` returns `"A"`. -/
theorem end_to_end_scenario (T0 : ℚ) (hT0 : (15 : ℚ) ≤ T0) :
    ((init ["A", "B"] 15).get_available_key T0).1 = some "A"
    ∧ (((init ["A", "B"] 15).get_available_key T0).2.get_available_key T0).1 = some "B"
    ∧ (((((init ["A", "B"] 15).get_available_key T0).2.get_available_key
          T0).2.mark_key_used "A" T0).get_available_key T0).1 = some "B"
    ∧ (((((((init ["A", "B"] 15).get_available_key T0).2.get_available_key
          T0).2.mark_key_used "A" T0).get_available_key T0).2.mark_key_used "B"
          (T0 + 1)).get_available_key (T0 + 10)).1 = none
    ∧ ((((((((init ["A", "B"] 15).get_available_key T0).2.get_available_key
          T0).2.mark_key_used "A" T0).get_available_key T0).2.mark_key_used "B"
          (T0 + 1)).get_available_key (T0 + 10)).2.get_available_key
          (T0 + 15 + 1 / 100)).1 = some "A" := by
  have hBA : ¬ ("A" : String) = "B" := by decide
  have e1 : (init ["A", "B"] 15).get_available_key T0
      = (some "A",
         ⟨15, [⟨"A", 0, true, 0⟩, ⟨"B", 0, true, 0⟩], 1⟩) := by
    norm_num [init, get_available_key, scanStep, hT0]
  have e2 : (⟨15, [⟨"A", 0, true, 0⟩, ⟨"B", 0, true, 0⟩], 1⟩ :
        APIKeyRotationManager).get_available_key T0
      = (some "B", ⟨15, [⟨"A", 0, true, 0⟩, ⟨"B", 0, true, 0⟩], 0⟩) := by
    norm_num [get_available_key, scanStep, hT0]
  have e3 : (⟨15, [⟨"A", 0, true, 0⟩, ⟨"B", 0, true, 0⟩], 0⟩ :
        APIKeyRotationManager).mark_key_used "A" T0
      = ⟨15, [⟨"A", T0, true, 0⟩, ⟨"B", 0, true, 0⟩], 0⟩ := by
    norm_num [mark_key_used, markUsedList]
  have e4 : (⟨15, [⟨"A", T0, true, 0⟩, ⟨"B", 0, true, 0⟩], 0⟩ :
        APIKeyRotationManager).get_available_key T0
      = (some "B", ⟨15, [⟨"A", T0, true, 0⟩, ⟨"B", 0, true, 0⟩], 0⟩) := by
    norm_num [get_available_key, scanStep, hT0]
  have e5 : (⟨15, [⟨"A", T0, true, 0⟩, ⟨"B", 0, true, 0⟩], 0⟩ :
        APIKeyRotationManager).mark_key_used "B" (T0 + 1)
      = ⟨15, [⟨"A", T0, true, 0⟩, ⟨"B", T0 + 1, true, 0⟩], 0⟩ := by
    norm_num [mark_key_used, markUsedList, hBA]
  have e6 : (⟨15, [⟨"A", T0, true, 0⟩, ⟨"B", T0 + 1, true, 0⟩], 0⟩ :
        APIKeyRotationManager).get_available_key (T0 + 10)
      = (none, ⟨15, [⟨"A", T0, true, 0⟩, ⟨"B", T0 + 1, true, 0⟩], 0⟩) := by
    have h9 : T0 + 10 - (T0 + 1) = 9 := by ring
    norm_num [get_available_key, scanStep, h9]
  have e7 : (⟨15, [⟨"A", T0, true, 0⟩, ⟨"B", T0 + 1, true, 0⟩], 0⟩ :
        APIKeyRotationManager).get_available_key (T0 + 15 + 1 / 100)
      = (some "A", ⟨15, [⟨"A", T0, true, 0⟩, ⟨"B", T0 + 1, true, 0⟩], 1⟩) := by
    have hc : T0 + 15 + 1 / 100 - T0 = 15 + 1 / 100 := by ring
    norm_num [get_available_key, scanStep, hc]
  refine ⟨?_, ?_, ?_, ?_, ?_⟩ <;>
    simp only [e1, e2, e3, e4, e5, e6, e7]

/-- C3 witness: the scenario instantiated at the concrete origin
`T0 = 15`. -/
theorem end_to_end_scenario_witness :
    ((init ["A", "B"] 15).get_available_key 15).1 = some "A"
    ∧ (((init ["A", "B"] 15).get_available_key 15).2.get_available_key 15).1 = some "B"
    ∧ (((((init ["A", "B"] 15).get_available_key 15).2.get_available_key
          (15 : ℚ)).2.mark_key_used "A" 15).get_available_key 15).1 = some "B"
    ∧ (((((((init ["A", "B"] 15).get_available_key 15).2.get_available_key
          (15 : ℚ)).2.mark_key_used "A" 15).get_available_key 15).2.mark_key_used "B"
          ((15 : ℚ) + 1)).get_available_key ((15 : ℚ) + 10)).1 = none
    ∧ ((((((((init ["A", "B"] 15).get_available_key 15).2.get_available_key
          (15 : ℚ)).2.mark_key_used "A" 15).get_available_key 15).2.mark_key_used "B"
          ((15 : ℚ) + 1)).get_available_key ((15 : ℚ) + 10)).2.get_available_key
          ((15 : ℚ) + 15 + 1 / 100)).1 = some "A" :=
  end_to_end_scenario 15 (by norm_num)

/-- C4 — `get_available_key` frame property: no slot field changes and the
rate limit is untouched; the only state the call may change is the cursor
`current_index`.  In particular the selected credential's `last_used` is
not set at selection time. -/
theorem get_available_key_frame (m : APIKeyRotationManager) (t : ℚ) :
    ((m.get_available_key t).2).key_states = m.key_states
    ∧ ((m.get_available_key t).2).rate_limit_seconds = m.rate_limit_seconds := by
  by_cases h : m.key_states.isEmpty <;> simp [get_available_key, h]

/-- `mark_key_used` walks the slot list by key equality; with no matching
slot the list is returned unchanged. -/
theorem markUsedList_of_no_match (l : List APIKeyState) (k : String) (t : ℚ)
    (h : ∀ ks ∈ l, ks.key ≠ k) : markUsedList l k t = l := by
  induction l with
  | nil => rfl
  | cons x xs ih =>
    have hx : x.key ≠ k := h x (by simp)
    simp only [markUsedList, if_neg hx]
    rw [ih (fun ks hks => h ks (by simp [hks]))]

/-- `mark_key_error` walks the slot list by key equality; with no matching
slot the list is returned unchanged. -/
theorem markErrorList_of_no_match (l : List APIKeyState) (k : String) (d : Bool)
    (h : ∀ ks ∈ l, ks.key ≠ k) : markErrorList l k d = l := by
  induction l with
  | nil => rfl
  | cons x xs ih =>
    have hx : x.key ≠ k := h x (by simp)
    simp only [markErrorList, if_neg hx]
    rw [ih (fun ks hks => h ks (by simp [hks]))]

/-- C10 — Unknown-credential reports are silent no-ops: when no slot's key
equals `c`, both `mark_key_used` and `mark_key_error` leave the whole
manager (slots and cursor) unchanged. -/
theorem unknown_key_reports_noop (m : APIKeyRotationManager) (c : String)
    (t : ℚ) (d : Bool) (h : ∀ ks ∈ m.key_states, ks.key ≠ c) :
    m.mark_key_used c t = m ∧ m.mark_key_error c d = m := by
  constructor
  · simp [mark_key_used, markUsedList_of_no_match m.key_states c t h]
  · simp [mark_key_error, markErrorList_of_no_match m.key_states c d h]

/-- C10 witness: a two-key pool ignores reports about the foreign key
`"zz"`. -/
theorem unknown_key_reports_noop_witness :
    (init ["a", "b"] 15).mark_key_used "zz" 3 = init ["a", "b"] 15
    ∧ (init ["a", "b"] 15).mark_key_error "zz" true = init ["a", "b"] 15 :=
  unknown_key_reports_noop (init ["a", "b"] 15) "zz" 3 true (by decide)

/-- A successful scan result comes from an available slot of the list. -/
theorem scanStep_some_mem (slots : List APIKeyState) (r t : ℚ) :
    ∀ (fuel idx j : ℕ) (k : String),
      scanStep slots r t idx fuel = (some k, j) →
      ∃ ks ∈ slots, ks.key = k ∧ ks.is_available = true := by
  intro fuel
  induction fuel with
  | zero =>
    intro idx j k h
    simp [scanStep] at h
  | succ f ih =>
    intro idx j k h
    cases hg : slots[idx]? with
    | none => simp [scanStep, List.get?_eq_getElem?, hg] at h
    | some ks =>
      by_cases hc : ks.is_available = true ∧ r ≤ t - ks.last_used
      · simp only [scanStep, List.get?_eq_getElem?, hg, if_pos hc,
          Prod.mk.injEq] at h
        exact ⟨ks, List.getElem?_mem hg, by simpa using h.1, hc.1⟩
      · simp only [scanStep, List.get?_eq_getElem?, hg, if_neg hc] at h
        exact ih _ _ _ h

/-- A credential returned by `get_available_key` belongs to an available
slot. -/
theorem get_available_key_some_mem (m : APIKeyRotationManager) (t : ℚ)
    (k : String) (h : (m.get_available_key t).1 = some k) :
    ∃ ks ∈ m.key_states, ks.key = k ∧ ks.is_available = true := by
  by_cases he : m.key_states.isEmpty
  · simp [get_available_key, he] at h
  · rcases hsc : scanStep m.key_states m.rate_limit_seconds t
      m.current_index m.key_states.length with ⟨o, j⟩
    simp only [get_available_key, he, Bool.false_eq_true, if_false, hsc] at h
    subst h
    exact scanStep_some_mem m.key_states m.rate_limit_seconds t
      m.key_states.length m.current_index j k hsc

/-- With pairwise-distinct keys, `mark_key_error _ _ true` leaves every
slot whose key is the reported one unavailable. -/
theorem markErrorList_disables (l : List APIKeyState) (k : String)
    (hnd : (l.map APIKeyState.key).Nodup) :
    ∀ ks ∈ markErrorList l k true, ks.key = k → ks.is_available = false := by
  induction l with
  | nil => simp [markErrorList]
  | cons x xs ih =>
    have hnd' : (xs.map APIKeyState.key).Nodup := (List.nodup_cons.mp hnd).2
    have hx_not : x.key ∉ xs.map APIKeyState.key := (List.nodup_cons.mp hnd).1
    intro ks hks hkey
    by_cases hx : x.key = k
    · simp only [markErrorList, if_pos hx, List.mem_cons] at hks
      rcases hks with h1 | h2
      · simp [h1]
      · have hmem : x.key ∈ List.map APIKeyState.key xs := by
          rw [hx, ← hkey]
          exact List.mem_map_of_mem APIKeyState.key h2
        exact absurd hmem hx_not
    · simp only [markErrorList, if_neg hx, List.mem_cons] at hks
      rcases hks with h1 | h2
      · rw [h1] at hkey
        exact absurd hkey hx
      · exact ih hnd' ks h2 hkey

/-- Re-enabling after an error report erases exactly the error bookkeeping:
the composite equals a plain reset of the original slots (`last_used` and
keys untouched). -/
theorem enable_after_markError (l : List APIKeyState) (k : String) (d : Bool) :
    (markErrorList l k d).map
        (fun ks => { ks with is_available := true, error_count := 0 })
      = l.map (fun ks => { ks with is_available := true, error_count := 0 }) := by
  induction l with
  | nil => rfl
  | cons x xs ih =>
    by_cases hx : x.key = k <;>
      simp [markErrorList, hx, ih]

/-- C7 — Disable/enable round-trip: with distinct keys, after
`mark_key_error k true` the credential `k` is never returned at any time;
`enable_all_keys` then restores every slot to available with a zero error
count while keeping `last_used`; and on a single-credential pool the
re-enabled key is returned precisely when its pre-existing cooldown has
elapsed. -/
theorem disable_enable_roundtrip (m : APIKeyRotationManager) (k : String)
    (hnd : (m.key_states.map APIKeyState.key).Nodup) :
    (∀ t, ((m.mark_key_error k true).get_available_key t).1 ≠ some k)
    ∧ (m.mark_key_error k true).enable_all_keys.key_states
        = m.key_states.map (fun ks => { ks with is_available := true, error_count := 0 })
    ∧ (∀ s t, m.key_states = [s] → s.key = k → m.current_index = 0 →
        (((m.mark_key_error k true).enable_all_keys).get_available_key t).1
          = if m.rate_limit_seconds ≤ t - s.last_used then some k else none) := by
  refine ⟨?_, ?_, ?_⟩
  · intro t hsome
    obtain ⟨ks, hmem, hkey, havail⟩ :=
      get_available_key_some_mem (m.mark_key_error k true) t k hsome
    have hmem' : ks ∈ markErrorList m.key_states k true := by
      simpa [mark_key_error] using hmem
    have := markErrorList_disables m.key_states k hnd ks hmem' hkey
    rw [this] at havail
    exact Bool.false_ne_true havail
  · simp [enable_all_keys, mark_key_error, enable_after_markError]
  · intro s t hs hk hidx
    by_cases hc : m.rate_limit_seconds ≤ t - s.last_used <;>
      simp [enable_all_keys, mark_key_error, markErrorList, get_available_key,
        scanStep, hs, hk, hidx, hc]

/-- C7 witness: single pool `["a"]` with a success recorded at time 5 and
rate 15: while disabled it is never returned (checked at t = 100); the
round-trip resets the slot; after `enable_all_keys` it is withheld at
t = 10 and returned at t = 20. -/
theorem disable_enable_roundtrip_witness :
    ((((singleUsed "a" 15 5).mark_key_error "a" true).get_available_key 100).1
        ≠ some "a")
    ∧ ((singleUsed "a" 15 5).mark_key_error "a" true).enable_all_keys.key_states
        = (singleUsed "a" 15 5).key_states.map
            (fun ks => { ks with is_available := true, error_count := 0 })
    ∧ ((((singleUsed "a" 15 5).mark_key_error "a" true).enable_all_keys).get_available_key
          10).1 = none
    ∧ ((((singleUsed "a" 15 5).mark_key_error "a" true).enable_all_keys).get_available_key
          20).1 = some "a" := by
  have h := disable_enable_roundtrip (singleUsed "a" 15 5) "a" (by decide)
  refine ⟨h.1 100, h.2.1, ?_, ?_⟩
  · have h3 := h.2.2 ⟨"a", 5, true, 0⟩ 10 (by decide) (by decide) (by decide)
    rw [if_neg (by norm_num [singleUsed, mark_key_used, init])] at h3
    exact h3
  · have h3 := h.2.2 ⟨"a", 5, true, 0⟩ 20 (by decide) (by decide) (by decide)
    rw [if_pos (by norm_num [singleUsed, mark_key_used, init])] at h3
    exact h3

/-- Python's `wait_time < min_wait_time` comparison against the running
minimum of the sleep loop, where `none` models the initial
`float('inf')`. -/
def accBound (acc : Option ℚ) (w : ℚ) : Bool :=
  match acc with
  | none => true
  | some a => decide (w < a)

/-- One iteration of the sleep-computation loop of
`wait_for_available_key` (lines 122-126): available slots whose remaining
cooldown `rate_limit_seconds - (t - last_used)` is positive and below the
running minimum replace it. -/
def waitAccStep (r t : ℚ) (acc : Option ℚ) (ks : APIKeyState) : Option ℚ :=
  if ks.is_available = true then
    if 0 < r - (t - ks.last_used)
        ∧ accBound acc (r - (t - ks.last_used)) = true then
      some (r - (t - ks.last_used))
    else acc
  else acc

/-- The whole `min_wait_time` loop: fold the step over the slots starting
from infinity (`none`). -/
def minPosWaitFold (slots : List APIKeyState) (r t : ℚ) : Option ℚ :=
  slots.foldl (waitAccStep r t) none

/-- Line 129: sleep `min(min_wait_time, 0.5)`, or the fixed `0.5` fallback
when `min_wait_time` stayed infinite. -/
def sleepTime (m : APIKeyRotationManager) (t : ℚ) : ℚ :=
  match minPosWaitFold m.key_states m.rate_limit_seconds t with
  | some w => min w (1 / 2)
  | none => 1 / 2

/-- Result of a `wait_for_available_key` run; `fuelOut` marks model fuel
exhaustion (the real loop is bounded by wall time, not by a counter). -/
inductive WaitResult
  | found (k : String) (m : APIKeyRotationManager) (t : ℚ)
  | timedOut (m : APIKeyRotationManager) (t : ℚ)
  | fuelOut
deriving Repr, DecidableEq

/-- The polling loop of `wait_for_available_key` (lines 111-133) in ideal
time: the `while time.time() - start_time < max_wait_seconds` condition is
checked at time `t`; a truthy credential (Python `if key:` — the empty
string is falsy) returns immediately; otherwise the loop sleeps
`sleepTime` and re-polls.  Computation itself takes no model time. -/
def waitRun (maxw t0 : ℚ) : APIKeyRotationManager → ℚ → ℕ → WaitResult
  | _, _, 0 => .fuelOut
  | m, t, fuel + 1 =>
    if t - t0 < maxw then
      let res := m.get_available_key t
      match res.1 with
      | some k =>
        if k = "" then waitRun maxw t0 res.2 (t + sleepTime res.2 t) fuel
        else .found k res.2 t
      | none => waitRun maxw t0 res.2 (t + sleepTime res.2 t) fuel
    else
      .timedOut m t

/-- `wait_for_available_key`: enter the polling loop at its start time. -/
def wait_for_available_key (m : APIKeyRotationManager)
    (max_wait_seconds t0 : ℚ) (fuel : ℕ) : WaitResult :=
  waitRun max_wait_seconds t0 m t0 fuel

/-- Spec-side description of the sleep candidates: the positive remaining
cooldowns of the slots that are still `available`. -/
def remainingPosWaits (slots : List APIKeyState) (r t : ℚ) : List ℚ :=
  slots.filterMap (fun ks =>
    if ks.is_available = true ∧ 0 < r - (t - ks.last_used) then
      some (r - (t - ks.last_used))
    else none)

/-- Minimum of two extended rationals (`none` = infinity). -/
def optMin : Option ℚ → Option ℚ → Option ℚ
  | none, b => b
  | some a, none => some a
  | some a, some b => some (min a b)

theorem optMin_none_right (a : Option ℚ) : optMin a none = a := by
  cases a <;> rfl

theorem optMin_assoc (a b c : Option ℚ) :
    optMin (optMin a b) c = optMin a (optMin b c) := by
  cases a <;> cases b <;> cases c <;> simp [optMin, min_assoc]

theorem min?_eq_optMin (w : ℚ) (L : List ℚ) :
    (w :: L).min? = optMin (some w) L.min? := by
  cases hL : L.min? with
  | none => simp [List.min?_cons, hL, optMin]
  | some a => simp [List.min?_cons, hL, optMin]

/-- The running-minimum update of the sleep loop is the `optMin` of the
accumulator with the slot's (filtered) remaining cooldown. -/
theorem waitAccStep_eq_optMin (r t : ℚ) (acc : Option ℚ) (x : APIKeyState) :
    waitAccStep r t acc x
      = optMin acc
          (if x.is_available = true ∧ 0 < r - (t - x.last_used) then
            some (r - (t - x.last_used))
          else none) := by
  by_cases hav : x.is_available = true
  · by_cases hw : 0 < r - (t - x.last_used)
    · cases acc with
      | none => simp [waitAccStep, accBound, hav, hw, optMin]
      | some a =>
        by_cases hlt : r - (t - x.last_used) < a
        · simp [waitAccStep, accBound, hav, hw, hlt, optMin,
            min_eq_right (le_of_lt hlt)]
        · simp [waitAccStep, accBound, hav, hw, hlt, optMin,
            min_eq_left (le_of_not_lt hlt)]
    · simp [waitAccStep, accBound, hav, hw, optMin_none_right]
  · simp [waitAccStep, hav, optMin_none_right]

/-- Fold characterisation of the `min_wait_time` loop: it computes the
minimum of the positive remaining cooldowns among available slots. -/
theorem foldl_waitAccStep (r t : ℚ) :
    ∀ (l : List APIKeyState) (acc : Option ℚ),
      l.foldl (waitAccStep r t) acc = optMin acc (remainingPosWaits l r t).min? := by
  intro l
  induction l with
  | nil =>
    intro acc
    simp [remainingPosWaits, optMin_none_right]
  | cons x xs ih =>
    intro acc
    rw [List.foldl_cons, ih, waitAccStep_eq_optMin, optMin_assoc]
    congr 1
    by_cases hx : x.is_available = true ∧ 0 < r - (t - x.last_used)
    · simp only [remainingPosWaits, List.filterMap_cons, if_pos hx]
      rw [min?_eq_optMin]
    · simp only [remainingPosWaits, List.filterMap_cons, if_neg hx]
      rfl

/-- The model loop never sleeps longer than half a second. -/
theorem sleepTime_le_half (m : APIKeyRotationManager) (t : ℚ) :
    sleepTime m t ≤ 1 / 2 := by
  cases h : minPosWaitFold m.key_states m.rate_limit_seconds t with
  | none => simp [sleepTime, h]
  | some w => simp [sleepTime, h, min_le_right]

/-- A credential is only handed out while the wall clock is still inside
the `max_wait` window. -/
theorem waitRun_found_before_deadline (maxw t0 : ℚ) :
    ∀ (fuel : ℕ) (m : APIKeyRotationManager) (t : ℚ) (k : String)
      (m' : APIKeyRotationManager) (t' : ℚ),
      waitRun maxw t0 m t fuel = .found k m' t' → t' - t0 < maxw := by
  intro fuel
  induction fuel with
  | zero =>
    intro m t k m' t' h
    simp [waitRun] at h
  | succ f ih =>
    intro m t k m' t' h
    by_cases hlt : t - t0 < maxw
    · rcases hg : m.get_available_key t with ⟨o, m2⟩
      simp only [waitRun, if_pos hlt, hg] at h
      cases o with
      | some k2 =>
        have h' : (if k2 = "" then waitRun maxw t0 m2 (t + sleepTime m2 t) f
            else WaitResult.found k2 m2 t) = WaitResult.found k m' t' := h
        by_cases hk : k2 = ""
        · rw [if_pos hk] at h'
          exact ih m2 _ k m' t' h'
        · rw [if_neg hk] at h'
          injection h' with h1 h2 h3
          rw [← h3]
          exact hlt
      | none =>
        exact ih m2 _ k m' t' h
    · simp [waitRun, hlt] at h

/-- A timed-out run exits with elapsed time in `[max_wait, max_wait + ½]`,
provided it entered within that bound. -/
theorem waitRun_timedOut_bounds (maxw t0 : ℚ) :
    ∀ (fuel : ℕ) (m : APIKeyRotationManager) (t : ℚ)
      (m' : APIKeyRotationManager) (t' : ℚ),
      t - t0 ≤ maxw + 1 / 2 →
      waitRun maxw t0 m t fuel = .timedOut m' t' →
      maxw ≤ t' - t0 ∧ t' - t0 ≤ maxw + 1 / 2 := by
  intro fuel
  induction fuel with
  | zero =>
    intro m t m' t' hinv h
    simp [waitRun] at h
  | succ f ih =>
    intro m t m' t' hinv h
    by_cases hlt : t - t0 < maxw
    · rcases hg : m.get_available_key t with ⟨o, m2⟩
      simp only [waitRun, if_pos hlt, hg] at h
      cases o with
      | some k2 =>
        have h' : (if k2 = "" then waitRun maxw t0 m2 (t + sleepTime m2 t) f
            else WaitResult.found k2 m2 t) = WaitResult.timedOut m' t' := h
        by_cases hk : k2 = ""
        · rw [if_pos hk] at h'
          exact ih m2 _ m' t'
            (by have := sleepTime_le_half m2 t; linarith) h'
        · rw [if_neg hk] at h'
          simp at h'
      | none =>
        exact ih m2 _ m' t'
          (by have := sleepTime_le_half m2 t; linarith) h
    · simp only [waitRun, if_neg hlt] at h
      injection h with h1 h2
      rw [← h2]
      exact ⟨le_of_not_lt hlt, hinv⟩

/-- C5 — Blocking acquire: a credential is returned only strictly before
the `max_wait` deadline; a `none` (timeout) return exits with elapsed wall
time in `[max_wait, max_wait + 0.5]`; and the per-retry sleep is the
minimum positive remaining cooldown among available slots capped at half a
second, with a fixed half-second fallback when no such slot exists. -/
theorem blocking_acquire_deadline (m : APIKeyRotationManager)
    (maxw t0 : ℚ) (fuel : ℕ) (hmw : 0 ≤ maxw) :
    (∀ k m' t', wait_for_available_key m maxw t0 fuel = .found k m' t' →
        t' - t0 < maxw)
    ∧ (∀ m' t', wait_for_available_key m maxw t0 fuel = .timedOut m' t' →
        maxw ≤ t' - t0 ∧ t' - t0 ≤ maxw + 1 / 2)
    ∧ (∀ t, sleepTime m t
        = match (remainingPosWaits m.key_states m.rate_limit_seconds t).min? with
          | some w => min w (1 / 2)
          | none => 1 / 2) := by
  refine ⟨?_, ?_, ?_⟩
  · intro k m' t' h
    exact waitRun_found_before_deadline maxw t0 fuel m t0 k m' t' h
  · intro m' t' h
    exact waitRun_timedOut_bounds maxw t0 fuel m t0 m' t' (by linarith) h
  · intro t
    simp only [sleepTime, minPosWaitFold, foldl_waitAccStep]
    rfl

/-- C5 witness: `max_wait = 1 ≥ 0`; the sleep-policy equation evaluated on
a one-key pool at time 3. -/
theorem blocking_acquire_deadline_witness :
    (0 : ℚ) ≤ 1
    ∧ sleepTime (init ["k"] 15) 3
        = match (remainingPosWaits (init ["k"] 15).key_states
            (init ["k"] 15).rate_limit_seconds 3).min? with
          | some w => min w (1 / 2)
          | none => 1 / 2 :=
  ⟨by norm_num, (blocking_acquire_deadline (init ["k"] 15) 1 0 5 (by norm_num)).2.2 3⟩

/-- Lock-discipline events: acquiring and releasing `self.lock`, and
calling `time.sleep`. -/
inductive LockEvent
  | acq
  | rel
  | sleepFor (d : ℚ)
deriving Repr, DecidableEq

/-- Events of one `get_available_key` call (lines 58-99): the whole scan
runs under a single `with self.lock:` block that contains no sleep. -/
def getAvailableKeyEvents : List LockEvent := [.acq, .rel]

/-- Events of one non-successful iteration of the `wait_for_available_key`
loop (lines 113-130): the `get_available_key` attempt, then the
sleep-computation block `with self.lock:` opened at line 119 whose body
ends with `time.sleep(sleep_time)` at line 130 — the sleep is executed
before the lock is released. -/
def waitLoopBodyEvents (m : APIKeyRotationManager) (t : ℚ) : List LockEvent :=
  getAvailableKeyEvents ++ [.acq, .sleepFor (sleepTime m t), .rel]

/-- Whether some sleep event occurs at positive lock depth. -/
def sleepsWhileLocked : List LockEvent → ℕ → Bool
  | [], _ => false
  | LockEvent.acq :: rest, d => sleepsWhileLocked rest (d + 1)
  | LockEvent.rel :: rest, d => sleepsWhileLocked rest (d - 1)
  | LockEvent.sleepFor _ :: rest, d => decide (0 < d) || sleepsWhileLocked rest d

/-- C6 — the code violates the no-lock-across-suspension claim: in every
sleeping iteration of the wait loop the `time.sleep` call sits inside the
`with self.lock:` block, so the sleep event happens while the lock is
held and concurrent `mark_key_used` / `mark_key_error` callers are blocked
for its duration. -/
theorem wait_loop_sleeps_while_locked (m : APIKeyRotationManager) (t : ℚ) :
    sleepsWhileLocked (waitLoopBodyEvents m t) 0 = true := rfl

/-- The redacted identifier of `get_status` (line 198): `"..."` followed by
Python's `key[-4:]`, that is the last `min(4, length)` characters. -/
def keySuffix (s : String) : String :=
  "..." ++ String.mk (s.data.drop (s.data.length - 4))

/-- Per-slot entry of the `get_status` report (lines 196-203). -/
structure KeyInfo where
  index : ℕ
  key_suffix : String
  is_available : Bool
  error_count : ℕ
  time_until_available : ℚ
  ready_now : Bool
deriving Repr, DecidableEq

/-- The `get_status` report (lines 184-212). -/
structure Status where
  total_keys : ℕ
  available_keys : ℕ
  rate_limited_keys : ℕ
  disabled_keys : ℕ
  keys : List KeyInfo
deriving Repr, DecidableEq

/-- Line 194: `max(0, rate_limit_seconds - time_since_last_use)`. -/
def timeUntilAvailable (r t : ℚ) (ks : APIKeyState) : ℚ :=
  max 0 (r - (t - ks.last_used))

/-- Lines 196-203: the per-slot `key_info` dictionary. -/
def keyInfoOf (r t : ℚ) (i : ℕ) (ks : APIKeyState) : KeyInfo :=
  { index := i
    key_suffix := keySuffix ks.key
    is_available := ks.is_available
    error_count := ks.error_count
    time_until_available := timeUntilAvailable r t ks
    ready_now := ks.is_available && decide (timeUntilAvailable r t ks = 0) }

namespace APIKeyRotationManager

/-- `get_status` (lines 180-214): pool-wide counters (disabled first, then
still-cooling, then ready — lines 205-210) and the per-slot entries. -/
def get_status (m : APIKeyRotationManager) (current_time : ℚ) : Status :=
  { total_keys := m.key_states.length
    available_keys := m.key_states.countP
      (fun ks => ks.is_available
        && !decide (0 < timeUntilAvailable m.rate_limit_seconds current_time ks))
    rate_limited_keys := m.key_states.countP
      (fun ks => ks.is_available
        && decide (0 < timeUntilAvailable m.rate_limit_seconds current_time ks))
    disabled_keys := m.key_states.countP (fun ks => !ks.is_available)
    keys := m.key_states.enum.map
      (fun p => keyInfoOf m.rate_limit_seconds current_time p.1 p.2) }

end APIKeyRotationManager

/-- C8 counterexample: for the four-character credential `"abcd"` the
surfaced identifier is `"...abcd"`, which contains the full credential as
a substring — the claim fails for credentials of length ≤ 4. -/
theorem keySuffix_contains_full_credential :
    ∃ info ∈ ((init ["abcd"] 15).get_status 0).keys,
      List.IsInfix "abcd".data info.key_suffix.data := by
  refine ⟨keyInfoOf 15 0 0 ⟨"abcd", 0, true, 0⟩, ?_, ?_⟩
  · simp [init, get_status, List.enum]
  · exact ⟨"...".data, [], by decide⟩

/-- C8 (amended) — every identifier surfaced by `get_status` is `"..."`
followed by at most the last four characters of the slot's credential; no
characters other than a length-≤-4 suffix of the secret are exposed. -/
theorem key_suffix_redaction (m : APIKeyRotationManager) (t : ℚ) :
    ∀ info ∈ (m.get_status t).keys,
      ∃ ks ∈ m.key_states, ∃ exposed : List Char,
        info.key_suffix.data = '.' :: '.' :: '.' :: exposed
        ∧ exposed.length ≤ 4
        ∧ List.IsSuffix exposed ks.key.data := by
  intro info hinfo
  simp only [get_status, List.mem_map] at hinfo
  obtain ⟨p, hp, hinfo⟩ := hinfo
  refine ⟨p.2, List.snd_mem_of_mem_enum hp,
    p.2.key.data.drop (p.2.key.data.length - 4), ?_, ?_, ?_⟩
  · rw [← hinfo]
    simp [keyInfoOf, keySuffix, String.data_append]
  · simp [List.length_drop]
    omega
  · exact List.drop_suffix _ _

/-- C8 witness: the six-character credential `"abcdef"` is surfaced as
`"...cdef"` — three dots and the last four characters only. -/
theorem key_suffix_redaction_witness :
    ∃ info ∈ ((init ["abcdef"] 15).get_status 0).keys,
      ∃ ks ∈ (init ["abcdef"] 15).key_states, ∃ exposed : List Char,
        info.key_suffix.data = '.' :: '.' :: '.' :: exposed
        ∧ exposed.length ≤ 4
        ∧ List.IsSuffix exposed ks.key.data := by
  refine ⟨keyInfoOf 15 0 0 ⟨"abcdef", 0, true, 0⟩, ?_, ?_⟩
  · simp [init, get_status, List.enum]
  · exact key_suffix_redaction (init ["abcdef"] 15) 0
      (keyInfoOf 15 0 0 ⟨"abcdef", 0, true, 0⟩)
      (by simp [init, get_status, List.enum])

/-- Unfolding step of the wait loop when the poll finds no key. -/
theorem waitRun_step_none (maxw t0 : ℚ) (m : APIKeyRotationManager) (t : ℚ)
    (f : ℕ) (hlt : t - t0 < maxw) (m2 : APIKeyRotationManager)
    (hg : m.get_available_key t = (none, m2)) :
    waitRun maxw t0 m t (f + 1) = waitRun maxw t0 m2 (t + sleepTime m2 t) f := by
  simp only [waitRun, if_pos hlt, hg]

/-- On an empty pool, every poll fails, so the wait loop can never produce
a credential, whatever the clock or the fuel. -/
theorem waitRun_empty_never_found (r maxw t0 : ℚ) :
    ∀ (fuel : ℕ) (tc : ℚ) (k : String) (m' : APIKeyRotationManager) (t' : ℚ),
      waitRun maxw t0 (init [] r) tc fuel ≠ WaitResult.found k m' t' := by
  intro fuel
  induction fuel with
  | zero =>
    intro tc k m' t' h
    simp [waitRun] at h
  | succ f ih =>
    intro tc k m' t' h
    by_cases hlt : tc - t0 < maxw
    · have hg : (init ([] : List String) r).get_available_key tc
          = (none, init [] r) := by
        simp [init, get_available_key]
      rw [waitRun_step_none maxw t0 _ tc f hlt _ hg] at h
      exact ih _ k m' t' h
    · simp [waitRun, hlt] at h

/-- A timed-out wait always exits at or after the deadline. -/
theorem waitRun_timedOut_ge (maxw t0 : ℚ) :
    ∀ (fuel : ℕ) (m : APIKeyRotationManager) (t : ℚ)
      (m' : APIKeyRotationManager) (t' : ℚ),
      waitRun maxw t0 m t fuel = WaitResult.timedOut m' t' → maxw ≤ t' - t0 := by
  intro fuel
  induction fuel with
  | zero =>
    intro m t m' t' h
    simp [waitRun] at h
  | succ f ih =>
    intro m t m' t' h
    by_cases hlt : t - t0 < maxw
    · rcases hg : m.get_available_key t with ⟨o, m2⟩
      cases o with
      | some k2 =>
        have h' : (if k2 = "" then waitRun maxw t0 m2 (t + sleepTime m2 t) f
            else WaitResult.found k2 m2 t) = WaitResult.timedOut m' t' := by
          rw [← h]
          simp only [waitRun, if_pos hlt, hg]
        by_cases hk : k2 = ""
        · rw [if_pos hk] at h'
          exact ih m2 _ m' t' h'
        · rw [if_neg hk] at h'
          simp at h'
      | none =>
        rw [waitRun_step_none maxw t0 m t f hlt m2 hg] at h
        exact ih m2 _ m' t' h
    · simp only [waitRun, if_neg hlt] at h
      injection h with h1 h2
      rw [← h2]
      exact le_of_not_lt hlt

/-- C9 counterexample: on an empty pool with `max_wait = 1`,
`wait_for_available_key` does not return immediately — it polls (sleeping
the fixed 0.5 s fallback) and only returns `none` (times out) once the
full second has elapsed. -/
theorem empty_pool_wait_not_immediate :
    wait_for_available_key (init [] 15) 1 0 4
      = WaitResult.timedOut (init [] 15) 1
    ∧ (1 : ℚ) ≠ 0 := by
  have hget : ∀ t : ℚ, (init ([] : List String) 15).get_available_key t
      = (none, init [] 15) := by
    intro t
    simp [init, get_available_key]
  have hsleep : ∀ t : ℚ, sleepTime (init ([] : List String) 15) t = 1 / 2 := by
    intro t
    simp [sleepTime, minPosWaitFold, init]
  constructor
  · rw [wait_for_available_key,
      waitRun_step_none 1 0 _ 0 3 (by norm_num) _ (hget 0), hsleep,
      waitRun_step_none 1 0 _ (0 + 1 / 2) 2 (by norm_num) _ (hget (0 + 1 / 2)),
      hsleep]
    have hstop : ¬ ((0 : ℚ) + 1 / 2 + 1 / 2 - 0 < 1) := by norm_num
    simp only [waitRun, if_neg hstop]
    norm_num
  · norm_num

/-- C9 (amended) — Empty-pool degradation: zero credentials is not a
construction error; `get_available_key` returns `none` immediately;
`wait_for_available_key` never yields a credential and returns `none`
only by timing out at or after `max_wait` (it polls with 0.5 s sleeps
rather than returning immediately); `get_status` reports zero total
keys. -/
theorem empty_pool_degrades (r maxw t0 t : ℚ) (fuel : ℕ) :
    ((init ([] : List String) r).get_available_key t).1 = none
    ∧ (∀ k m' t', wait_for_available_key (init [] r) maxw t0 fuel
        ≠ WaitResult.found k m' t')
    ∧ (∀ m' t', wait_for_available_key (init [] r) maxw t0 fuel
        = WaitResult.timedOut m' t' → maxw ≤ t' - t0)
    ∧ ((init ([] : List String) r).get_status t).total_keys = 0 := by
  refine ⟨?_, ?_, ?_, ?_⟩
  · simp [init, get_available_key]
  · intro k m' t'
    exact waitRun_empty_never_found r maxw t0 fuel t0 k m' t'
  · intro m' t' h
    exact waitRun_timedOut_ge maxw t0 fuel (init [] r) t0 m' t' h
  · simp [init, get_status]

/-- C9 witness: the amended statement exercised on the concrete empty-pool
run with `max_wait = 1` starting at 0. -/
theorem empty_pool_degrades_witness :
    ((init ([] : List String) 15).get_available_key 0).1 = none
    ∧ wait_for_available_key (init [] 15) 1 0 4
        ≠ WaitResult.found "x" (init [] 15) 0
    ∧ (1 : ℚ) ≤ 1 - 0
    ∧ ((init ([] : List String) 15).get_status 0).total_keys = 0 := by
  have h := empty_pool_degrades 15 1 0 0 4
  refine ⟨h.1, h.2.1 "x" (init [] 15) 0, ?_, h.2.2.2⟩
  apply h.2.2.1 (init [] 15) 1
  have hget : ∀ t : ℚ, (init ([] : List String) 15).get_available_key t
      = (none, init [] 15) := by
    intro t
    simp [init, get_available_key]
  have hsleep : ∀ t : ℚ, sleepTime (init ([] : List String) 15) t = 1 / 2 := by
    intro t
    simp [sleepTime, minPosWaitFold, init]
  rw [wait_for_available_key,
    waitRun_step_none 1 0 _ 0 3 (by norm_num) _ (hget 0), hsleep,
    waitRun_step_none 1 0 _ (0 + 1 / 2) 2 (by norm_num) _ (hget (0 + 1 / 2)),
    hsleep]
  have hstop : ¬ ((0 : ℚ) + 1 / 2 + 1 / 2 - 0 < 1) := by norm_num
  simp only [waitRun, if_neg hstop]
  norm_num
